import Mathlib

/-!
Verification of the fantasy-football assistant's API-client normalization layer,
retry policy, and heuristic scorers, as a shallow embedding of
`app/yahoo_client.py`, `app/brains/draft.py` and `app/brains/rules.py`.

Python values flowing through the normalizer are JSON-like: `None`, numbers,
strings, lists and dicts (with both integer and string keys, as the client
indexes some payload dicts by the integer `0`).  Python floats are embedded as
rationals; machine floating-point rounding plays no role in any property
considered here (all constants and comparisons are exact in the source).
Operations that can raise (`AttributeError` from calling `.get`/`.lower` on a
non-dict/non-string, `TypeError` from `" ".join` on non-strings) are embedded
in `Except PyErr`.
-/

namespace YFF

/-- A Python dict key as used by the Yahoo payloads: an int or a string. -/
inductive PyKey where
  | i (n : Int)
  | s (s : String)
deriving DecidableEq, Repr

/-- A JSON-like Python value. `num` covers Python ints and floats (their
arithmetic and comparisons coincide on the exact values the client handles). -/
inductive PyVal where
  | none
  | num (q : ℚ)
  | str (s : String)
  | list (xs : List PyVal)
  | dict (entries : List (PyKey × PyVal))
deriving Repr

/-- A Python dict body: its entries in insertion order (keys unique). -/
abbrev Pdict := List (PyKey × PyVal)

mutual
/-- Python `==` on embedded values.  Scalars compare as in Python; for two
lists or two dicts we compare entry lists pointwise.  (Python compares dicts
as unordered mappings; every `==` the client performs compares against a
scalar id or name string, where the two semantics agree.) -/
def pyEq : PyVal → PyVal → Bool
  | .none, .none => true
  | .num a, .num b => a == b
  | .str a, .str b => a == b
  | .list xs, .list ys => pyEqList xs ys
  | .dict xs, .dict ys => pyEqEntries xs ys
  | _, _ => false
def pyEqList : List PyVal → List PyVal → Bool
  | [], [] => true
  | x :: xs, y :: ys => pyEq x y && pyEqList xs ys
  | _, _ => false
def pyEqEntries : List (PyKey × PyVal) → List (PyKey × PyVal) → Bool
  | [], [] => true
  | (k, v) :: xs, (k2, v2) :: ys => k == k2 && pyEq v v2 && pyEqEntries xs ys
  | _, _ => false
end

/-- Python truthiness: `None`, `0`, `""`, `[]` and `{}` are falsy. -/
def pyTruthy : PyVal → Bool
  | .none => false
  | .num q => q != 0
  | .str s => s != ""
  | .list xs => !xs.isEmpty
  | .dict es => !es.isEmpty

/-- Exceptions the embedded code can raise. -/
inductive PyErr where
  | attributeError
  | typeError
deriving DecidableEq, Repr

/-- First-match lookup in a dict body (Python dict keys are unique). -/
def dictFind (es : Pdict) (k : PyKey) : Option PyVal :=
  match es.find? (fun e => e.1 == k) with
  | some e => some e.2
  | Option.none => Option.none

/-- Python `d.get(k)` on a dict body (default `None`). -/
def dictGet (es : Pdict) (k : PyKey) : PyVal :=
  (dictFind es k).getD .none

/-- Python `d.get(k, default)` on a dict body. -/
def dictGetD (es : Pdict) (k : PyKey) (d : PyVal) : PyVal :=
  (dictFind es k).getD d

/-- Python `v.get(k)`: raises `AttributeError` unless `v` is a dict. -/
def pyGet (v : PyVal) (k : PyKey) : Except PyErr PyVal :=
  match v with
  | .dict es => .ok (dictGet es k)
  | _ => .error .attributeError

/-- Python `v.get(k, default)`: raises `AttributeError` unless `v` is a dict. -/
def pyGetD (v : PyVal) (k : PyKey) (d : PyVal) : Except PyErr PyVal :=
  match v with
  | .dict es => .ok (dictGetD es k d)
  | _ => .error .attributeError

/-- Python `d[k] = v` on a dict body: overwrite in place, or append a new key
at the end (insertion order is preserved, as CPython does). -/
def setEntry : Pdict → PyKey → PyVal → Pdict
  | [], k, v => [(k, v)]
  | (k', v') :: es, k, v =>
    if k' == k then (k, v) :: es else (k', v') :: setEntry es k v

/-- Python `v == k` where `k` is a string: true exactly when `v` is that
string (no non-string value equals a string in Python). -/
def isStrEq (v : PyVal) (k : String) : Bool :=
  match v with
  | .str s => s == k
  | _ => false

/-! ### Character-level string helpers

The embedding implements its string operations over `List Char` (Lean's
library versions are definitionally opaque to the kernel).  They model the
CPython operations named in each doc comment. -/

/-- Python `str.upper()` (charwise; the client only upcases ASCII sort names). -/
def strUpper (s : String) : String := ⟨s.data.map Char.toUpper⟩

/-- Python `str.lower()` (charwise; used for search terms and error texts). -/
def strLower (s : String) : String := ⟨s.data.map Char.toLower⟩

/-- Whether `pre` is a prefix of `l` (used to implement substring search). -/
def charsPre : List Char → List Char → Bool
  | [], _ => true
  | _ :: _, [] => false
  | a :: as, b :: bs => a == b && charsPre as bs

/-- Python `needle in hay` on strings: contiguous substring containment. -/
def substrB (needle hay : String) : Bool :=
  hay.data.tails.any (charsPre needle.data)

/-- Lexicographic `<` over code points, as Python compares strings. -/
def charsLt : List Char → List Char → Bool
  | [], [] => false
  | [], _ :: _ => true
  | _ :: _, [] => false
  | a :: as, b :: bs => if a < b then true else if b < a then false else charsLt as bs

/-- Python `str.strip()` restricted to whitespace stripping. -/
def strStrip (s : String) : String :=
  ⟨((s.data.dropWhile Char.isWhitespace).reverse.dropWhile Char.isWhitespace).reverse⟩

/-- Python `str.split()` with no argument: split on whitespace runs,
dropping empty pieces. -/
def splitWsAux : List Char → List Char → List String
  | [], acc => if acc.isEmpty then [] else [⟨acc.reverse⟩]
  | c :: cs, acc =>
    if c.isWhitespace then
      if acc.isEmpty then splitWsAux cs [] else ⟨acc.reverse⟩ :: splitWsAux cs []
    else splitWsAux cs (c :: acc)

def splitWs (s : String) : List String := splitWsAux s.data []

/-- Decimal digits of a natural number (recursion on a fuel bound ≥ the
number itself, which always suffices since `n / 10 < n` for `n > 0`). -/
def natStrAux : Nat → Nat → List Char
  | 0, _ => []
  | _ + 1, 0 => []
  | fuel + 1, n => natStrAux fuel (n / 10) ++ [Char.ofNat (48 + n % 10)]

/-- Python `str(i)` for a natural loop index. -/
def natStr (n : Nat) : String :=
  if n == 0 then "0" else ⟨natStrAux n n⟩

/-! ### Helper extractors of `app/yahoo_client.py` (lines 317-420)

Each definition embeds the like-named Python function; all are translated
clause by clause from the source. -/

/-- `_coerce_player_dicts` (yahoo_client.py:317-331): keep only dict items,
unwrapping a `"player"` sub-dict when present.  Non-list input yields `[]`. -/
def coerce_player_dicts : PyVal → List Pdict
  | .list xs =>
    xs.filterMap fun it =>
      match it with
      | .dict es =>
        match dictFind es (.s "player") with
        | some (.dict pes) => some pes
        | _ => some es
      | _ => Option.none
  | _ => []

/-- Scan of `kv.items()` inner lists for a `{"name": key, "value": v}` item,
returning the first matching `value` (the nested-loop `return` in
`_from_kv`). -/
def kvListFind (key : String) : List PyVal → Option PyVal
  | [] => Option.none
  | item :: rest =>
    match item with
    | .dict ies =>
      if isStrEq (dictGet ies (.s "name")) key then some (dictGet ies (.s "value"))
      else kvListFind key rest
    | _ => kvListFind key rest

def kvEntriesFind (key : String) : Pdict → Option PyVal
  | [] => Option.none
  | (_, v) :: es =>
    match v with
    | .list items =>
      match kvListFind key items with
      | some r => some r
      | Option.none => kvEntriesFind key es
    | _ => kvEntriesFind key es

/-- `_from_kv` (yahoo_client.py:334-355).  Every access is guarded by an
`isinstance` check in the source, so this extractor is total (never raises);
`key` is a string at every call site. -/
def from_kv (obj : PyVal) (key : String) : PyVal :=
  match obj with
  | .dict es =>
    if es.any (fun e => e.1 == .s key) then dictGet es (.s key)
    else
      match dictGet es (.i 0) with
      | .dict kv =>
        if isStrEq (dictGet kv (.s "name")) key then dictGet kv (.s "value")
        else (kvEntriesFind key kv).getD .none
      | _ => .none
  | _ => .none

/-- `_safe_get` (yahoo_client.py:358-364): walk a chain of string keys,
returning `None` as soon as the current value is not a dict holding the key. -/
def safe_get : PyVal → List String → PyVal
  | obj, [] => obj
  | obj, k :: ks =>
    match obj with
    | .dict es =>
      match dictFind es (.s k) with
      | some v => safe_get v ks
      | Option.none => .none
    | _ => .none

/-- Python `" ".join([first, last]).strip()`: `join` raises `TypeError`
unless both pieces are strings. -/
def joinNamePieces (first last : PyVal) : Except PyErr PyVal :=
  match first, last with
  | .str f, .str l => .ok (.str (strStrip (f ++ " " ++ l)))
  | _, _ => .error .typeError

/-- `_player_name` (yahoo_client.py:367-373).  `p.get(0, {}).get("name")`
raises `AttributeError` when `p` is not a dict or `p[0]` is a non-dict. -/
def player_name (p : PyVal) : Except PyErr PyVal :=
  match pyGetD p (.i 0) (.dict []) with
  | .error e => .error e
  | .ok n0 =>
    match pyGet n0 (.s "name") with
    | .error e => .error e
    | .ok n1 =>
      match (if pyTruthy n1 then Except.ok n1 else pyGet p (.s "name")) with
      | .error e => .error e
      | .ok name =>
        match name with
        | .dict es =>
          joinNamePieces (dictGetD es (.s "first") (.str "")) (dictGetD es (.s "last") (.str ""))
        | _ => .ok name

/-- The `while True` index loop of `_eligible_positions` Case A.  The Python
loop breaks at the first `i` with `ep.get(str(i))` absent; with `n` entries
some index in `0..n` must be absent (pigeonhole), so fuel `n + 1` makes the
zero-fuel clause unreachable and the recursion equivalent to the source loop.
`item.get("position")` raises `AttributeError` on a non-dict, non-`None` item. -/
def eligLoop (es : Pdict) : Nat → Nat → Except PyErr (List PyVal)
  | 0, _ => .ok []
  | fuel + 1, i =>
    match dictGet es (.s (natStr i)) with
    | .none => .ok []
    | item =>
      match pyGet item (.s "position") with
      | .error e => .error e
      | .ok pos =>
        match eligLoop es fuel (i + 1) with
        | .error e => .error e
        | .ok rest => .ok (if pyTruthy pos then pos :: rest else rest)

/-- `_eligible_positions` (yahoo_client.py:376-405): normalize either the
indexed-dict shape or the flat-list shape; falsy or unrecognized input
yields `[]`. -/
def eligible_positions (p : PyVal) : Except PyErr (List PyVal) :=
  match pyGet p (.s "eligible_positions") with
  | .error e => .error e
  | .ok ep =>
    if !pyTruthy ep then .ok []
    else
      match ep with
      | .dict es => eligLoop es (es.length + 1) 0
      | .list xs => .ok (xs.filter (fun x => match x with | .str _ => true | _ => false))
      | _ => .ok []

/-- `_bye_week` (yahoo_client.py:408-413): total (built on `_from_kv`). -/
def bye_week (p : PyVal) : PyVal :=
  match from_kv p "bye_weeks" with
  | .dict es => dictGet es (.s "week")
  | bw => bw

/-- `_percent_owned` (yahoo_client.py:416-420): `p.get` raises on a non-dict
`p`; dict-shaped values unwrap `"value"` falling back to `"percent_owned"`. -/
def percent_owned (p : PyVal) : Except PyErr PyVal :=
  match pyGet p (.s "percent_owned") with
  | .error e => .error e
  | .ok po0 =>
    let po := if pyTruthy po0 then po0 else from_kv p "percent_owned"
    match po with
    | .dict es =>
      let v := dictGet es (.s "value")
      .ok (if pyTruthy v then v else dictGet es (.s "percent_owned"))
    | _ => .ok po

/-! ### Generic stable sort

`list.sort(key=..., reverse=...)` in CPython is a stable sort with respect to
a total preorder on keys; any stable sort produces the same output list, so we
embed it as a stable insertion sort parameterized by the strict comparison
`lt` ("x must come strictly before y"). -/

def insertAsc (lt : α → α → Bool) (x : α) : List α → List α
  | [] => [x]
  | y :: ys => if lt x y then x :: y :: ys else y :: insertAsc lt x ys

def stableSortBy (lt : α → α → Bool) (l : List α) : List α :=
  l.foldl (fun acc x => insertAsc lt x acc) []

/-! ### Float conversion used by the sort keys -/

/-- Value of a run of decimal digit characters. -/
def digitsToNat (cs : List Char) : Nat :=
  cs.foldl (fun a c => a * 10 + (c.toNat - 48)) 0

/-- Python `float(s)` on a string, for the sign/digits/point forms
(`"12"`, `"-3.5"`, `".5"`, ...); other forms (exponents, `inf`, padding)
are parse failures here.  A failure lands in the caller's
`except: own = 0.0` either way, so only the numeric value of exotic
accepted-by-CPython spellings is approximated. -/
def parseFloatQ (s : String) : Option ℚ :=
  let signed : ℚ × List Char :=
    match s.data with
    | '-' :: r => (-1, r)
    | '+' :: r => (1, r)
    | r => (1, r)
  let sign := signed.1
  let rest := signed.2
  let intPart := rest.takeWhile Char.isDigit
  let after := rest.dropWhile Char.isDigit
  match after with
  | [] =>
    if intPart.isEmpty then Option.none
    else some (sign * (digitsToNat intPart : ℚ))
  | '.' :: frac =>
    if frac.all Char.isDigit && !(intPart.isEmpty && frac.isEmpty) then
      some (sign * ((digitsToNat intPart : ℚ) + (digitsToNat frac : ℚ) / 10 ^ frac.length))
    else Option.none
  | _ => Option.none

/-- `float(v)` under the sort keys' `try/except` (yahoo_client.py:276-289):
numbers pass through, parsable strings parse, and anything raising
(`TypeError`/`ValueError`) yields the `except` fallback `0.0`. -/
def pyFloatOr0 : PyVal → ℚ
  | .num q => q
  | .str s => (parseFloatQ s).getD 0
  | _ => 0

/-! ### `YahooClient.available_players` (yahoo_client.py:173-312)

The network fetches are inputs of the embedding: `fetchFA pos` is the value
produced by the (retried) `free_agents(pos)` call and `fetchWv` the value of
`waivers()`.  The temporary-fault fallback in the source replaces a failed
fetch by `[]` before merging, which a caller of this embedding represents by
passing `.list []`; non-temporary faults propagate out of the generator
before it yields anything and are outside the merge logic verified here.
The pacing `time.sleep` calls between fetches do not affect the output. -/

/-- One output row of `available_players` (yahoo_client.py:253-264). -/
structure Row where
  player_id : PyVal
  name : PyVal
  team : PyVal
  pos : PyVal
  elig : List PyVal
  bye : PyVal
  pown : PyVal
  stat : PyVal
  inj : PyVal
  avail : PyVal

/-- `positions = [position] if position else [...]` (yahoo_client.py:199):
an empty-string or absent position means all core positions. -/
def positionsFor : Option String → List String
  | some p => if p == "" then ["QB", "RB", "WR", "TE", "DEF", "K"] else [p]
  | Option.none => ["QB", "RB", "WR", "TE", "DEF", "K"]

/-- The free-agent pass (yahoo_client.py:202-220): per position, coerce the
fetched value (`fa or []`), tag each item `_availability = "FA"`, and append.
No dedup happens in this pass. -/
def buildFAPool (fetchFA : String → PyVal) (position : Option String) : List Pdict :=
  (positionsFor position).foldl
    (fun pool pos =>
      let fa := fetchFA pos
      let items := coerce_player_dicts (if pyTruthy fa then fa else .list [])
      pool ++ items.map (fun es => setEntry es (.s "_availability") (.str "FA")))
    []

/-- `(not position) or (position in (_eligible_positions(item) or []))`
(yahoo_client.py:237). -/
def waiverPosOk (position : Option String) (item : Pdict) : Except PyErr Bool :=
  match position with
  | Option.none => .ok true
  | some ps =>
    if ps == "" then .ok true
    else
      match eligible_positions (.dict item) with
      | .error e => .error e
      | .ok elig => .ok (elig.any (fun v => isStrEq v ps))

/-- The dedup key of a pool item, as the waiver merge computes it
(`_from_kv(item, "player_id")`, yahoo_client.py:234-235). -/
def pid_of (p : Pdict) : PyVal := from_kv (.dict p) "player_id"

/-- `item["_availability"] = "W"` (yahoo_client.py:232). -/
def wTag (item0 : Pdict) : Pdict := setEntry item0 (.s "_availability") (.str "W")

/-- One step of the waiver merge (yahoo_client.py:231-238): tag the item
`"W"`, and append it only when its `player_id` is truthy and not `==` to the
id of any item already in the pool, and the position filter passes. -/
def addWaiver (position : Option String) (pool : List Pdict) (item0 : Pdict) :
    Except PyErr (List Pdict) :=
  let item := wTag item0
  if pyTruthy (pid_of item) && !(pool.any fun x => pyEq (pid_of x) (pid_of item)) then
    match waiverPosOk position item with
    | .error e => .error e
    | .ok true => .ok (pool ++ [item])
    | .ok false => .ok pool
  else .ok pool

def mergeWaivers (position : Option String) (pool : List Pdict) :
    List Pdict → Except PyErr (List Pdict)
  | [] => .ok pool
  | it :: its =>
    match addWaiver position pool it with
    | .error e => .error e
    | .ok pool' => mergeWaivers position pool' its

/-- The merged candidate pool (yahoo_client.py:199-238). -/
def buildPool (fetchFA : String → PyVal) (fetchWv : PyVal) (position : Option String)
    (includeWaivers : Bool) : Except PyErr (List Pdict) :=
  let pool := buildFAPool fetchFA position
  if includeWaivers then
    mergeWaivers position pool
      (coerce_player_dicts (if pyTruthy fetchWv then fetchWv else .list []))
  else .ok pool

/-- Normalization of one pool item into a row (yahoo_client.py:243-264). -/
def rowOf (p : Pdict) : Except PyErr Row :=
  let pd := PyVal.dict p
  let pidA := safe_get pd ["player_id", "0", "player_id"]
  let pid := if pyTruthy pidA then pidA else from_kv pd "player_id"
  match player_name pd with
  | .error e => .error e
  | .ok name =>
    let team := from_kv pd "editorial_team_abbr"
    match eligible_positions pd with
    | .error e => .error e
    | .ok elig =>
      let primary := match elig with | [] => PyVal.none | x :: _ => x
      let bye := bye_week pd
      match percent_owned pd with
      | .error e => .error e
      | .ok pown =>
        let stat := from_kv pd "status"
        let inj := from_kv pd "injury_note"
        let avail := dictGetD p (.s "_availability") (.str "FA")
        .ok { player_id := pid, name := name, team := team, pos := primary, elig := elig,
              bye := bye, pown := pown, stat := stat, inj := inj, avail := avail }

/-- The search filter (yahoo_client.py:266-271): skipped for a falsy search
term; a falsy name skips the row; `search.lower() not in name.lower()` skips
it, raising `AttributeError` when a truthy name is not a string. -/
def searchKeep (search : Option String) (name : PyVal) : Except PyErr Bool :=
  match search with
  | Option.none => .ok true
  | some s =>
    if s == "" then .ok true
    else if !pyTruthy name then .ok false
    else
      match name with
      | .str ns => .ok (substrB (strLower s) (strLower ns))
      | _ => .error .attributeError

/-- The row loop (yahoo_client.py:241-273): normalize each pool item in
order, keeping rows that pass the search filter. -/
def normalizeRows (search : Option String) : List Pdict → Except PyErr (List Row)
  | [] => .ok []
  | p :: ps =>
    match rowOf p with
    | .error e => .error e
    | .ok row =>
      match searchKeep search row.name with
      | .error e => .error e
      | .ok keep =>
        match normalizeRows search ps with
        | .error e => .error e
        | .ok rest => .ok (if keep then row :: rest else rest)

/-- The `own` component shared by `sort_key_AR` / `sort_key_POWN`
(yahoo_client.py:276-289): `float(r.get("%owned") or 0.0)` with the
`except` fallback `0.0`. -/
def ownOf (r : Row) : ℚ :=
  pyFloatOr0 (if pyTruthy r.pown then r.pown else .num 0)

/-- The name component of the AR/POWN sort keys: `r.get("name") or ""`. -/
def nameKeyOf (r : Row) : PyVal :=
  if pyTruthy r.name then r.name else .str ""

/-- Python rank used to order the name tie-break across value kinds.  Python
raises `TypeError` on comparisons between different types (and offers no `<`
on dicts); the sort then raises before the generator yields anything, so no
claim depends on the relative order of such pairs and any fixed asymmetric
choice is a sound embedding.  Strings and numbers compare as in Python. -/
def pyRank : PyVal → Nat
  | .none => 0
  | .num _ => 1
  | .str _ => 2
  | .list _ => 3
  | .dict _ => 4

def pyOrdLt (a b : PyVal) : Bool :=
  match a, b with
  | .str x, .str y => charsLt x.data y.data
  | .num x, .num y => x < y
  | _, _ => pyRank a < pyRank b

/-- Tuple comparison for `sort_key_AR(r) = (own, name)` (yahoo_client.py:276-282). -/
def ltAR (r1 r2 : Row) : Bool :=
  if ownOf r1 < ownOf r2 then true
  else if ownOf r2 < ownOf r1 then false
  else pyOrdLt (nameKeyOf r1) (nameKeyOf r2)

/-- Tuple comparison for `sort_key_POWN(r) = (-own, name)` (yahoo_client.py:284-289). -/
def ltPOWN (r1 r2 : Row) : Bool :=
  if -ownOf r1 < -ownOf r2 then true
  else if -ownOf r2 < -ownOf r1 then false
  else pyOrdLt (nameKeyOf r1) (nameKeyOf r2)

/-- `sort_key_NAME` (yahoo_client.py:291-296): `(last, first)` from the
whitespace-split name.  A truthy non-string name raises in Python before
anything is yielded; it is keyed `("", "")` here (see `pyRank`'s note). -/
def nameSortKey (r : Row) : String × String :=
  match nameKeyOf r with
  | .str s =>
    let parts := splitWs s
    let first := match parts with | [] => "" | f :: _ => f
    let last := if parts.length > 1 then (parts.getLast?.getD "") else first
    (last, first)
  | _ => ("", "")

def ltNAME (r1 r2 : Row) : Bool :=
  let k1 := nameSortKey r1
  let k2 := nameSortKey r2
  if charsLt k1.1.data k2.1.data then true
  else if charsLt k2.1.data k1.1.data then false
  else charsLt k1.2.data k2.2.data

/-- The local sort dispatch (yahoo_client.py:298-304):
`key = (sort or "AR").upper()`, defaulting to AR. -/
def sortRows (sort : String) (rows : List Row) : List Row :=
  let key := strUpper (if sort == "" then "AR" else sort)
  if key == "POWN" then stableSortBy ltPOWN rows
  else if key == "NAME" then stableSortBy ltNAME rows
  else stableSortBy ltAR rows

/-- `if isinstance(limit, int) and limit >= 0: rows = rows[:limit]`
(yahoo_client.py:307-308): the cap applies only to a non-negative int. -/
def applyLimit (limit : Option Int) (rows : List Row) : List Row :=
  match limit with
  | some n => if 0 ≤ n then rows.take n.toNat else rows
  | Option.none => rows

/-- The filtered, sorted rows of `available_players` before the limit. -/
def availableRowsSorted (fetchFA : String → PyVal) (fetchWv : PyVal)
    (position : Option String) (includeWaivers : Bool) (search : Option String)
    (sort : String) : Except PyErr (List Row) :=
  match buildPool fetchFA fetchWv position includeWaivers with
  | .error e => .error e
  | .ok pool =>
    match normalizeRows search pool with
    | .error e => .error e
    | .ok rows => .ok (sortRows sort rows)

/-- `YahooClient.available_players` (yahoo_client.py:173-312): the full list
the generator yields (the trailing loop yields `rows` in order). -/
def available_players (fetchFA : String → PyVal) (fetchWv : PyVal)
    (position : Option String) (includeWaivers : Bool) (search : Option String)
    (sort : String) (limit : Option Int) : Except PyErr (List Row) :=
  match availableRowsSorted fetchFA fetchWv position includeWaivers search sort with
  | .error e => .error e
  | .ok rows => .ok (applyLimit limit rows)

/-! ### `YahooClient._retry` (yahoo_client.py:91-123)

The wrapped callable's behaviour is an input `fn : Nat → Except String α`
giving, per attempt index, either a value or the text of the exception
raised; `jitter i` is the draw of `random.uniform(0.7, 1.3)` on attempt `i`.
`time.sleep` calls are collected as a trace of requested durations. -/

/-- `_decode_err_text` (yahoo_client.py:18-26): unwrap a `b'...'` repr.  The
`unicode_escape` decode of the interior is embedded as the raw interior (its
`except` fallback); the two differ only on texts containing backslash
escapes, which no claim exercises. -/
def decode_err_text (msg : String) : String :=
  if charsPre ['b', '\''] msg.data && charsPre ['\''] msg.data.reverse then
    ⟨(msg.data.drop 2).dropLast⟩
  else msg

/-- `_looks_temporary` (yahoo_client.py:46-56). -/
def looks_temporary (errText : String) : Bool :=
  let t := strLower errText
  substrB "temporary problem" t || substrB "please try again shortly" t ||
    substrB "throttle" t || substrB "rate limit" t || substrB "999" t ||
    substrB "unavailable" t || substrB "timeout" t

/-- The fast-fail test `any(s in msg for s in ("401", "invalid_grant",
"Not authorized"))` (yahoo_client.py:106). -/
def is_auth_failure (msg : String) : Bool :=
  substrB "401" msg || substrB "invalid_grant" msg || substrB "Not authorized" msg

/-- Outcome of `_retry`: a value, the original exception re-raised on an auth
failure, or the `YahooClientError` raised at exhaustion — each with the trace
of sleeps performed before it. -/
inductive RetryResult (α : Type) where
  | ok (value : α) (sleeps : List ℚ)
  | reraised (msg : String) (sleeps : List ℚ)
  | clientError (msg : String) (sleeps : List ℚ)
deriving Repr

/-- The exhaustion raise (yahoo_client.py:121-123): `_parse_yahoo_error`
attempts `json.loads` and falls back to the decoded message for non-JSON
texts; the claims here concern only the classification of this error, not a
prettified JSON description, so the fallback branch is the embedded
description. -/
def exhaustMsg : Option String → String
  | some e => decode_err_text e
  | Option.none => "Unknown error"

/-- The `for i in range(tries)` loop of `_retry` (yahoo_client.py:97-119),
with `remaining = tries - i` as structural fuel (zero fuel is exactly loop
exhaustion).  On an exception: fast-fail re-raise on auth markers; compute
`sleep = min(base * 2^i, max_sleep) * jitter`; `break` to the exhaustion
raise when `i >= 2 and not _looks_temporary(msg) and i >= tries - 2`;
otherwise sleep and continue. -/
def retryLoop (fn : Nat → Except String α) (jitter : Nat → ℚ) (tries : Nat)
    (base maxS : ℚ) : Nat → Nat → Option String → List ℚ → RetryResult α
  | 0, _, lastErr, sleeps => .clientError (exhaustMsg lastErr) sleeps
  | remaining + 1, i, _, sleeps =>
    match fn i with
    | .ok v => .ok v sleeps
    | .error e =>
      let msg := decode_err_text e
      if is_auth_failure msg then .reraised e sleeps
      else
        let sleep := min (base * 2 ^ i) maxS * jitter i
        if 2 ≤ i && !looks_temporary msg && tries ≤ i + 2 then
          .clientError (exhaustMsg (some e)) sleeps
        else
          retryLoop fn jitter tries base maxS remaining (i + 1) (some e) (sleeps ++ [sleep])

/-- `YahooClient._retry` (yahoo_client.py:91-123); the source defaults are
`tries=6, base_sleep=0.6, max_sleep=8.0`. -/
def retry (fn : Nat → Except String α) (jitter : Nat → ℚ) (tries : Nat)
    (base maxS : ℚ) : RetryResult α :=
  retryLoop fn jitter tries base maxS tries 0 Option.none []

/-! ### `YahooClient.settings` (yahoo_client.py:135-148) and `__init__`
(yahoo_client.py:60-83)

`__init__` assigns `self.oauth`, `self.league_id` and `self._league` but
never `self._settings_cache`, so the state carries the cache attribute as an
`Option`: `Option.none` means the attribute does not exist and reading it
raises `AttributeError`. -/

/-- The part of client state `settings` touches: the `_settings_cache`
attribute, absent (`Option.none`) or holding `{"ts": ts, "data": data}`. -/
structure ClientState where
  settingsCache : Option (ℚ × PyVal)
deriving Repr

/-- The state `__init__` (yahoo_client.py:60-83) leaves behind:
`_settings_cache` was never assigned. -/
def initialClientState : ClientState := { settingsCache := Option.none }

/-- Errors out of `settings`: a Python exception, or the classified
`YahooClientError` propagated from `_retry`. -/
inductive SettingsErr where
  | py (e : PyErr)
  | client (msg : String)
deriving Repr

/-- `YahooClient.settings` (yahoo_client.py:135-148) at time `now` with cache
window `ttl` (source default 180): serve the cached payload when present,
truthy and fresh; otherwise fetch (`fetch` is the retried
`league().settings()` outcome), and repopulate the cache only when
`draft_status` lowercases to `"predraft"`, clearing it otherwise.  Reading
`self._settings_cache` raises `AttributeError` while the attribute is absent;
`(data or {}).get` raises on a truthy non-dict payload, and `.lower()` on a
non-string `draft_status`. -/
def settingsCall (now ttl : ℚ) (fetch : Except String PyVal) (st : ClientState) :
    Except SettingsErr (PyVal × ClientState) :=
  match st.settingsCache with
  | Option.none => .error (.py .attributeError)
  | some (ts, cached) =>
    if pyTruthy cached && decide (now - ts < ttl) then .ok (cached, st)
    else
      match fetch with
      | .error msg => .error (.client msg)
      | .ok data =>
        match (if pyTruthy data then pyGetD data (.s "draft_status") (.str "")
               else .ok (.str "")) with
        | .error e => .error (.py e)
        | .ok ds =>
          match ds with
          | .str s =>
            if strLower s == "predraft" then
              .ok (data, { settingsCache := some (now, data) })
            else
              .ok (data, { settingsCache := some (0, .none) })
          | _ => .error (.py .attributeError)

/-! ### `tier_players` (brains/draft.py:4-25)

Pool items carry the documented keys `{"player_id","name","pos","proj","adp"}`
(draft.py:6), embedded as a record; a pool dict is always truthy, so the
`if prev` guard is an `Option` test here. -/

structure DPlayer where
  player_id : String
  name : String
  pos : String
  proj : ℚ
  adp : ℚ
deriving DecidableEq, Repr

/-- Keys of `by_pos` in first-appearance order (`setdefault` keeps dict
insertion order). -/
def posKeys (pool : List DPlayer) : List String :=
  pool.foldl (fun ks p => if ks.contains p.pos then ks else ks ++ [p.pos]) []

/-- The players grouped under one position, in pool order. -/
def playersAt (pool : List DPlayer) (pos : String) : List DPlayer :=
  pool.filter (fun p => p.pos == pos)

/-- `players.sort(key=lambda x: x["proj"], reverse=True)`: stable descending. -/
def ltProjDesc (a b : DPlayer) : Bool := b.proj < a.proj

/-- The tier-chunking loop of `tier_players` (draft.py:15-23): break the
current tier when the drop from the previous player exceeds 1.8. -/
def chunkTiers : List DPlayer → Option DPlayer → List DPlayer →
    List (List DPlayer) → List (List DPlayer)
  | [], _, cur, acc => if cur.isEmpty then acc else acc ++ [cur]
  | p :: ps, prev, cur, acc =>
    match prev with
    | some q =>
      if q.proj - p.proj > 1.8 then chunkTiers ps (some p) [p] (acc ++ [cur])
      else chunkTiers ps (some p) (cur ++ [p]) acc
    | Option.none => chunkTiers ps (some p) (cur ++ [p]) acc

/-- `tier_players` (draft.py:4-25). -/
def tier_players (pool : List DPlayer) : List (List DPlayer) :=
  (posKeys pool).foldl
    (fun tiers pos => chunkTiers (stableSortBy ltProjDesc (playersAt pool pos)) Option.none [] tiers)
    []

/-! ### `suggest_lineup` (brains/rules.py:3-28)

Features carry the keys `build_lineup_features` constructs (features.py:5-13):
`player_id`, `pos`, `proj` (float), `def_rank` (number), `injury` (status
string).  Slot counts (`Dict[str, int]`, unique keys) are the configured
roster capacities, which are non-negative in every construction; they are
embedded as an association list of naturals looked up by first match. -/

structure Feature where
  player_id : String
  pos : String
  proj : ℚ
  def_rank : ℚ
  injury : String
deriving DecidableEq, Repr

/-- The inner `score` of `suggest_lineup` (rules.py:9-12). -/
def lineup_score (f : Feature) : ℚ :=
  let injury_pen : ℚ :=
    if f.injury == "O" || f.injury == "IR" then 4.0
    else if f.injury == "Q" || f.injury == "D" then 2.0
    else 0.0
  let def_pen : ℚ := (f.def_rank - 16) * 0.1
  f.proj + def_pen - injury_pen

/-- `round(x, 2)`.  CPython rounds half to even; `round` here rounds half
up — the two differ only at exact half-hundredths, and no claim concerns the
rounded score value. -/
def round2 (q : ℚ) : ℚ := (round (q * 100) : ℤ) / 100

structure LineupEntry where
  player_id : String
  slot : String
  score : ℚ
deriving DecidableEq, Repr

def slotLookup (slots : List (String × Nat)) (k : String) : Option Nat :=
  match slots.find? (fun e => e.1 == k) with
  | some e => some e.2
  | Option.none => Option.none

/-- Pointwise update of the `filled` counters. -/
def updFn (filled : String → Nat) (k : String) (v : Nat) : String → Nat :=
  fun x => if x == k then v else filled x

/-- `sorted(features, key=score, reverse=True)`: stable descending. -/
def ltScoreDesc (a b : Feature) : Bool := lineup_score b < lineup_score a

/-- The first placement branch (rules.py:21-24): `if pos in filled and
filled[pos] < slots[pos]`, append the entry and set `placed`.  `pos in
filled` is `slotLookup slots pos ≠ none` since `filled` is built with
exactly the slot keys (rules.py:16). -/
def placePos (slots : List (String × Nat)) (lineup : List LineupEntry)
    (filled : String → Nat) (f : Feature) :
    List LineupEntry × (String → Nat) × Bool :=
  match slotLookup slots f.pos with
  | some cap =>
    if filled f.pos < cap then
      (lineup ++ [{ player_id := f.player_id, slot := f.pos, score := round2 (lineup_score f) }],
       updFn filled f.pos (filled f.pos + 1), true)
    else (lineup, filled, false)
  | Option.none => (lineup, filled, false)

/-- The FLEX branch (rules.py:25-27): reached only when not placed; requires
a configured FLEX slot with room and an RB/WR/TE position. -/
def placeFlex (slots : List (String × Nat)) (lineup : List LineupEntry)
    (filled : String → Nat) (f : Feature) :
    List LineupEntry × (String → Nat) :=
  match slotLookup slots "FLEX" with
  | some fcap =>
    if filled "FLEX" < fcap && (f.pos == "RB" || f.pos == "WR" || f.pos == "TE") then
      (lineup ++ [{ player_id := f.player_id, slot := "FLEX", score := round2 (lineup_score f) }],
       updFn filled "FLEX" (filled "FLEX" + 1))
    else (lineup, filled)
  | Option.none => (lineup, filled)

/-- One iteration of the placement loop (rules.py:17-27). -/
def lineupPlace (slots : List (String × Nat)) (st : List LineupEntry × (String → Nat))
    (f : Feature) : List LineupEntry × (String → Nat) :=
  let r := placePos slots st.1 st.2 f
  if r.2.2 then (r.1, r.2.1) else placeFlex slots r.1 r.2.1 f

/-- `suggest_lineup` (rules.py:3-28). -/
def suggest_lineup (features : List Feature) (slots : List (String × Nat)) :
    List LineupEntry :=
  ((stableSortBy ltScoreDesc features).foldl (lineupPlace slots) ([], fun _ => 0)).1

/-! ### Observers and concrete inputs used by the theorems -/

/-- Whether some later pool item's `player_id` is `==` to an earlier one's. -/
def has_dup_pid : List Pdict → Bool
  | [] => false
  | x :: xs => xs.any (fun y => pyEq (pid_of x) (pid_of y)) || has_dup_pid xs

/-- Whether some later output row's `player_id` equals an earlier one's. -/
def has_dup_pid_rows : List Row → Bool
  | [] => false
  | x :: xs => xs.any (fun y => pyEq x.player_id y.player_id) || has_dup_pid_rows xs

/-- The row list of a non-raising call (a raising generator yields nothing). -/
def result_rows (r : Except PyErr (List Row)) : List Row :=
  match r with
  | .ok l => l
  | .error _ => []

/-- A flex-eligible player as returned inside two per-position free-agent
lists: `free_agents("QB")` and `free_agents("RB")` both contain it. -/
def dupPlayer : Pdict := [(.s "player_id", .str "1"), (.s "name", .str "Al Dupe")]

def dupFetchFA : String → PyVal := fun pos =>
  if pos == "QB" || pos == "RB" then .list [.dict dupPlayer] else .list []

/-- A one-key waiver item for exercising the dedup rule. -/
def wItem : Pdict := [(.s "player_id", .str "1")]

/-- A waiver item with a fresh id. -/
def w2 : Pdict := [(.s "player_id", .str "2")]

/-- A single feature used to instantiate lineup theorems. -/
def f1qb : Feature := { player_id := "p1", pos := "QB", proj := 5, def_rank := 16, injury := "OK" }

/-- Rows with distinct ownership for the POWN sort. -/
def pOwnFetchFA : String → PyVal := fun pos =>
  if pos == "QB" then
    .list [.dict [(.s "player_id", .str "2"), (.s "name", .str "Low Own"),
                  (.s "percent_owned", .num 10)],
           .dict [(.s "player_id", .str "3"), (.s "name", .str "High Own"),
                  (.s "percent_owned", .num 30)]]
  else .list []

/-- Wrapped-call behaviour with one transient failure then success. -/
def c4fn : Nat → Except String Nat :=
  fun i => if i == 0 then .error "temporary problem" else .ok 7

/-- Three same-position players with consecutive drops of 1 point each. -/
def cA : DPlayer := { player_id := "A", name := "A", pos := "RB", proj := 10, adp := 1 }
def cB : DPlayer := { player_id := "B", name := "B", pos := "RB", proj := 9, adp := 2 }
def cC : DPlayer := { player_id := "C", name := "C", pos := "RB", proj := 8, adp := 3 }
def cPool : List DPlayer := [cA, cB, cC]

end YFF

namespace YFF

/-! ## Generic lemmas about the embedded stable sort -/

theorem insertAsc_perm (lt : α → α → Bool) (x : α) :
    ∀ ys : List α, List.Perm (insertAsc lt x ys) (x :: ys) := by
  intro ys
  induction ys with
  | nil => simp [insertAsc]
  | cons y ys ih =>
    rw [insertAsc]
    by_cases h : lt x y = true
    · rw [if_pos h]
    · rw [if_neg h]
      exact (List.Perm.cons y ih).trans (List.Perm.swap x y ys)

theorem stableSortBy_perm (lt : α → α → Bool) (l : List α) :
    List.Perm (stableSortBy lt l) l := by
  unfold stableSortBy
  suffices h : ∀ acc : List α,
      List.Perm (l.foldl (fun acc x => insertAsc lt x acc) acc) (acc ++ l) by
    simpa using h []
  induction l with
  | nil => intro acc; simp
  | cons x l ih =>
    intro acc
    rw [List.foldl_cons]
    refine ((ih _).trans ?_)
    refine ((insertAsc_perm lt x acc).append_right l).trans ?_
    exact List.perm_middle.symm

theorem chain'_insertAsc (lt : α → α → Bool)
    (hasym : ∀ a b, lt a b = true → lt b a = false) (x : α) :
    ∀ ys : List α, ys.Chain' (fun a b => lt b a = false) →
      (insertAsc lt x ys).Chain' (fun a b => lt b a = false) := by
  intro ys
  induction ys with
  | nil => intro _; simp [insertAsc]
  | cons y ys ih =>
    intro h
    rw [List.chain'_cons'] at h
    obtain ⟨hy, hys⟩ := h
    by_cases hxy : lt x y = true
    · rw [insertAsc, if_pos hxy, List.chain'_cons']
      refine ⟨?_, ?_⟩
      · intro z hz
        simp only [List.head?_cons, Option.mem_def, Option.some.injEq] at hz
        subst hz
        exact hasym x y hxy
      · rw [List.chain'_cons']
        exact ⟨hy, hys⟩
    · rw [insertAsc, if_neg hxy, List.chain'_cons']
      refine ⟨?_, ih hys⟩
      intro z hz
      cases ys with
      | nil =>
        simp only [insertAsc, List.head?_cons, Option.mem_def, Option.some.injEq] at hz
        subst hz
        exact Bool.not_eq_true _ ▸ (Bool.eq_false_iff.mpr hxy)
      | cons w ws =>
        rw [insertAsc] at hz
        by_cases hxw : lt x w = true
        · rw [if_pos hxw] at hz
          simp only [List.head?_cons, Option.mem_def, Option.some.injEq] at hz
          subst hz
          exact Bool.eq_false_iff.mpr hxy
        · rw [if_neg hxw] at hz
          simp only [List.head?_cons, Option.mem_def, Option.some.injEq] at hz
          subst hz
          exact hy w (by simp)

theorem chain'_stableSortBy (lt : α → α → Bool)
    (hasym : ∀ a b, lt a b = true → lt b a = false) (l : List α) :
    (stableSortBy lt l).Chain' (fun a b => lt b a = false) := by
  unfold stableSortBy
  suffices h : ∀ acc : List α, acc.Chain' (fun a b => lt b a = false) →
      (l.foldl (fun acc x => insertAsc lt x acc) acc).Chain' (fun a b => lt b a = false) from
    h [] (by simp)
  induction l with
  | nil => intro acc hacc; simpa using hacc
  | cons x l ih =>
    intro acc hacc
    rw [List.foldl_cons]
    exact ih _ (chain'_insertAsc lt hasym x acc hacc)

/-! ## Asymmetry of the concrete comparators -/

theorem charsLt_asym : ∀ x y : List Char, charsLt x y = true → charsLt y x = false
  | [], [], h => by simp [charsLt] at h
  | [], _ :: _, _ => by simp [charsLt]
  | _ :: _, [], h => by simp [charsLt] at h
  | a :: as, b :: bs, h => by
    rw [charsLt] at h
    rw [charsLt]
    by_cases hab : a < b
    · rw [if_neg (lt_asymm hab), if_pos hab]
    · rw [if_neg hab] at h
      by_cases hba : b < a
      · rw [if_pos hba] at h
        exact absurd h (by simp)
      · rw [if_neg hba] at h
        rw [if_neg hba, if_neg hab]
        exact charsLt_asym as bs h

theorem pyOrdLt_asym (a b : PyVal) (h : pyOrdLt a b = true) : pyOrdLt b a = false := by
  cases a <;> cases b <;>
    simp only [pyOrdLt, pyRank, decide_eq_true_eq, decide_eq_false_iff_not] at h ⊢ <;>
    first
      | omega
      | exact lt_asymm h
      | exact charsLt_asym _ _ h

theorem ltPOWN_asym (a b : Row) (h : ltPOWN a b = true) : ltPOWN b a = false := by
  rw [ltPOWN] at h ⊢
  by_cases h1 : -ownOf a < -ownOf b
  · rw [if_neg (lt_asymm h1), if_pos h1]
  · rw [if_neg h1] at h
    by_cases h2 : -ownOf b < -ownOf a
    · rw [if_pos h2] at h
      exact absurd h (by simp)
    · rw [if_neg h2] at h
      rw [if_neg h2, if_neg h1]
      exact pyOrdLt_asym _ _ h

/-! ## C2 — normalizer extractors and malformed input -/

/-- C2: the spec's contract says every extractor degrades gracefully to
`None`/empty and never raises.  The code violates this: on the malformed
payload `{0: "x"}` (the indexed slot holding a non-dict), `_player_name`
evaluates `p.get(0, {}).get("name")` and raises `AttributeError`.  The intent
of the defensive parsing layer (isinstance guards everywhere else) is clearly
the spec's contract, so this is a code bug, witnessed by this evaluation. -/
theorem C2_player_name_raises :
    player_name (.dict [(.i 0, .str "x")]) = .error .attributeError := rfl

/-! ## C3 — settings accessor and the uninitialized cache -/

/-- C3: `settings` reads `self._settings_cache` (yahoo_client.py:138) but
`__init__` (yahoo_client.py:60-83) never assigns that attribute, so the very
first `settings()` call on a fresh client raises `AttributeError` — neither
the payload nor a classified error, contradicting the claim's contract.  The
time-to-live cache logic is unreachable until some call has survived this
read, which none can on a fresh client. -/
theorem C3_settings_first_call_raises (now ttl : ℚ) (fetch : Except String PyVal) :
    settingsCall now ttl fetch initialClientState = .error (.py .attributeError) := rfl

/-! ## C6 — fast-fail on auth errors -/

/-- C6: when the wrapped call fails on the first attempt with an error whose
text matches an auth marker, `_retry` re-raises that error immediately: no
retry is attempted and no sleep happens (the sleep trace is empty). -/
theorem C6_auth_fast_fail (fn : Nat → Except String α) (jitter : Nat → ℚ)
    (tries : Nat) (base maxS : ℚ) (e : String)
    (htr : 0 < tries) (h0 : fn 0 = .error e)
    (hauth : is_auth_failure (decode_err_text e) = true) :
    retry fn jitter tries base maxS = .reraised e [] := by
  obtain ⟨r, rfl⟩ : ∃ r, tries = r + 1 := ⟨tries - 1, by omega⟩
  rw [retry, retryLoop, h0]
  simp [hauth]

/-- Witness for C6 at the spec's own example `"401 Not authorized"` and the
source default arguments. -/
theorem C6_witness :
    retry (fun _ => (Except.error "401 Not authorized" : Except String Nat))
      (fun _ => 1) 6 (3/5 : ℚ) 8 = .reraised "401 Not authorized" [] :=
  C6_auth_fast_fail _ _ 6 _ _ _ (by decide) rfl (by decide)

/-! ## C5 — tier gaps -/

theorem chunkTiers_chain :
    ∀ (ps : List DPlayer) (prev : Option DPlayer) (cur : List DPlayer)
      (acc : List (List DPlayer)),
      (∀ t ∈ acc, t.Chain' (fun a b => a.proj - b.proj ≤ 1.8)) →
      cur.Chain' (fun a b => a.proj - b.proj ≤ 1.8) →
      (∀ q, prev = some q → cur.getLast? = some q) →
      (prev = Option.none → cur = []) →
      ∀ t ∈ chunkTiers ps prev cur acc, t.Chain' (fun a b => a.proj - b.proj ≤ 1.8) := by
  intro ps
  induction ps with
  | nil =>
    intro prev cur acc hacc hcur _ _ t ht
    rw [chunkTiers] at ht
    by_cases hc : cur.isEmpty
    · rw [if_pos hc] at ht
      exact hacc t ht
    · rw [if_neg hc] at ht
      rcases List.mem_append.1 ht with h | h
      · exact hacc t h
      · rw [List.mem_singleton] at h
        exact h ▸ hcur
  | cons p ps ih =>
    intro prev cur acc hacc hcur hlast hnone t ht
    cases prev with
    | none =>
      rw [hnone rfl] at ht
      rw [chunkTiers] at ht
      simp only [List.nil_append] at ht
      exact ih (some p) [p] acc hacc (by simp) (by simp) (by simp) t ht
    | some q =>
      have hq : cur.getLast? = some q := hlast q rfl
      rw [chunkTiers] at ht
      by_cases hgap : q.proj - p.proj > 1.8
      · rw [if_pos hgap] at ht
        refine ih (some p) [p] (acc ++ [cur]) ?_ (by simp) (by simp) (by simp) t ht
        intro u hu
        rcases List.mem_append.1 hu with h | h
        · exact hacc u h
        · rw [List.mem_singleton] at h
          exact h ▸ hcur
      · rw [if_neg hgap] at ht
        refine ih (some p) (cur ++ [p]) acc hacc ?_ ?_ (by simp) t ht
        · refine List.chain'_append.2 ⟨hcur, by simp, ?_⟩
          intro x hx y hy
          simp only [List.head?_cons, Option.mem_def, Option.some.injEq] at hy
          rw [hq] at hx
          simp only [Option.mem_def, Option.some.injEq] at hx
          subst hx
          subst hy
          exact le_of_not_lt hgap
        · intro r hr
          injection hr with hr
          subst hr
          simp

/-- Evaluation of `tier_players` on three same-position players whose
consecutive drops are 1 point each: a single tier. -/
theorem tier_players_cPool : tier_players cPool = [[cA, cB, cC]] := by
  have h1 : posKeys cPool = ["RB"] := rfl
  have h2 : stableSortBy ltProjDesc (playersAt cPool "RB") = [cA, cB, cC] := rfl
  have g1 : ¬ (cA.proj - cB.proj > 1.8) := by norm_num [cA, cB]
  have g2 : ¬ (cB.proj - cC.proj > 1.8) := by norm_num [cB, cC]
  rw [tier_players, h1, List.foldl_cons, List.foldl_nil, h2]
  simp [chunkTiers, g1, g2]

/-- C5 counterexample: in the pool `cPool` (projections 10, 9, 8 at one
position) all three players land in one tier, yet the earliest player's
projection exceeds the last player's by 2 > 1.8 — so the claim as stated
(over arbitrary pairs within a tier) is false of the code. -/
theorem C5_counterexample :
    tier_players cPool = [[cA, cB, cC]] ∧ cA.proj - cC.proj > 1.8 :=
  ⟨tier_players_cPool, by norm_num [cA, cC]⟩

/-- C5 amended: within each tier produced by `tier_players`, no two
*consecutive* players (in the tier's descending-projection order) differ by
more than 1.8 — the threshold bounds consecutive drops, not arbitrary pairs. -/
theorem C5_tier_consecutive_gap (pool : List DPlayer) :
    ∀ t ∈ tier_players pool, t.Chain' (fun a b => a.proj - b.proj ≤ 1.8) := by
  unfold tier_players
  suffices h : ∀ (keys : List String) (acc : List (List DPlayer)),
      (∀ t ∈ acc, t.Chain' (fun a b => a.proj - b.proj ≤ 1.8)) →
      ∀ t ∈ keys.foldl
          (fun tiers pos =>
            chunkTiers (stableSortBy ltProjDesc (playersAt pool pos)) Option.none [] tiers)
          acc,
        t.Chain' (fun a b => a.proj - b.proj ≤ 1.8) from h _ [] (by simp)
  intro keys
  induction keys with
  | nil => intro acc hacc; simpa using hacc
  | cons k keys ih =>
    intro acc hacc
    rw [List.foldl_cons]
    exact ih _ (chunkTiers_chain _ Option.none [] acc hacc (by simp) (by simp) (fun _ => rfl))

/-- Witness for the amended C5 at the concrete pool. -/
theorem C5_witness : [cA, cB, cC].Chain' (fun a b => a.proj - b.proj ≤ 1.8) :=
  C5_tier_consecutive_gap cPool [cA, cB, cC] (by rw [tier_players_cPool]; simp)

/-! ## C7 and C10 — lineup assignment -/

theorem foldl_preserve {σ β : Type _} (P : σ → Prop) (f : σ → β → σ)
    (hstep : ∀ st b, P st → P (f st b)) :
    ∀ (l : List β) (init : σ), P init → P (l.foldl f init)
  | [], _, h => h
  | b :: l, init, h => foldl_preserve P f hstep l (f init b) (hstep init b h)

/-- Counting invariant through the position branch: the count of entries at
slot `s` tracks `filled s`, and never passes the configured cap. -/
theorem placePos_inv (slots : List (String × Nat)) (s : String) (cap : Nat)
    (h : slotLookup slots s = some cap) (lineup : List LineupEntry)
    (filled : String → Nat) (f : Feature)
    (hc : lineup.countP (fun e => e.slot == s) = filled s) (hb : filled s ≤ cap) :
    ((placePos slots lineup filled f).1.countP (fun e => e.slot == s) =
        (placePos slots lineup filled f).2.1 s ∧
      (placePos slots lineup filled f).2.1 s ≤ cap) := by
  rw [placePos]
  cases hpos : slotLookup slots f.pos with
  | none => exact ⟨hc, hb⟩
  | some cap' =>
    dsimp only
    by_cases hlt : filled f.pos < cap'
    · rw [if_pos hlt]
      simp only [List.countP_append, List.countP_cons, List.countP_nil, updFn]
      by_cases hps : f.pos = s
      · subst hps
        rw [h] at hpos
        injection hpos with hpos
        subst hpos
        simp [hc]
        omega
      · have hbeq : (f.pos == s) = false := by
          simp [hps]
        have hps' : ¬ s = f.pos := fun hh => hps hh.symm
        simp [hbeq, hps', hc, hb]
    · rw [if_neg hlt]
      exact ⟨hc, hb⟩

/-- The same counting invariant through the FLEX branch. -/
theorem placeFlex_inv (slots : List (String × Nat)) (s : String) (cap : Nat)
    (h : slotLookup slots s = some cap) (lineup : List LineupEntry)
    (filled : String → Nat) (f : Feature)
    (hc : lineup.countP (fun e => e.slot == s) = filled s) (hb : filled s ≤ cap) :
    ((placeFlex slots lineup filled f).1.countP (fun e => e.slot == s) =
        (placeFlex slots lineup filled f).2 s ∧
      (placeFlex slots lineup filled f).2 s ≤ cap) := by
  rw [placeFlex]
  cases hpos : slotLookup slots "FLEX" with
  | none => exact ⟨hc, hb⟩
  | some fcap =>
    dsimp only
    by_cases hcond : (filled "FLEX" < fcap && (f.pos == "RB" || f.pos == "WR" || f.pos == "TE")) = true
    · rw [if_pos hcond]
      have hcond' := hcond
      simp only [Bool.and_eq_true, decide_eq_true_eq] at hcond'
      have hlt : filled "FLEX" < fcap := hcond'.1
      simp only [List.countP_append, List.countP_cons, List.countP_nil, updFn]
      by_cases hps : s = "FLEX"
      · subst hps
        rw [h] at hpos
        injection hpos with hpos
        subst hpos
        simp [hc]
        omega
      · have hbeq : (("FLEX" : String) == s) = false := by
          simp only [beq_eq_false_iff_ne, ne_eq]
          exact fun hh => hps hh.symm
        simp [hbeq, hps, hc, hb]
    · rw [if_neg hcond]
      exact ⟨hc, hb⟩

/-- C7: for every feature list and slot configuration, the lineup returned by
`suggest_lineup` contains at most the configured count of entries for each
configured slot name, FLEX included. -/
theorem C7_lineup_slot_caps (features : List Feature) (slots : List (String × Nat))
    (s : String) (cap : Nat) (h : slotLookup slots s = some cap) :
    (suggest_lineup features slots).countP (fun e => e.slot == s) ≤ cap := by
  unfold suggest_lineup
  have hinv := foldl_preserve
    (P := fun st : List LineupEntry × (String → Nat) =>
      st.1.countP (fun e => e.slot == s) = st.2 s ∧ st.2 s ≤ cap)
    (lineupPlace slots)
    (fun st f hst => by
      rw [lineupPlace]
      by_cases hp : (placePos slots st.1 st.2 f).2.2 = true
      · rw [if_pos hp]
        exact placePos_inv slots s cap h st.1 st.2 f hst.1 hst.2
      · rw [if_neg hp]
        have h1 := placePos_inv slots s cap h st.1 st.2 f hst.1 hst.2
        exact placeFlex_inv slots s cap h _ _ f h1.1 h1.2)
    (stableSortBy ltScoreDesc features) ([], fun _ => 0) ⟨by simp, by simp⟩
  calc ((stableSortBy ltScoreDesc features).foldl (lineupPlace slots) ([], fun _ => 0)).1.countP
        (fun e => e.slot == s)
      = ((stableSortBy ltScoreDesc features).foldl (lineupPlace slots) ([], fun _ => 0)).2 s :=
        hinv.1
    _ ≤ cap := hinv.2

/-- Witness for C7 at a concrete feature list and slot configuration. -/
theorem C7_witness :
    (suggest_lineup [f1qb] [("QB", 1), ("FLEX", 1)]).countP (fun e => e.slot == "FLEX") ≤ 1 :=
  C7_lineup_slot_caps [f1qb] [("QB", 1), ("FLEX", 1)] "FLEX" 1 rfl

/-- Each loop iteration appends at most one entry, built from the feature
being placed (the `placed` flag keeps a position-slot placement from also
landing in FLEX). -/
theorem lineupPlace_shape (slots : List (String × Nat))
    (st : List LineupEntry × (String → Nat)) (f : Feature) :
    (lineupPlace slots st f).1 = st.1 ∨
    ∃ slot, (lineupPlace slots st f).1 =
      st.1 ++ [{ player_id := f.player_id, slot := slot, score := round2 (lineup_score f) }] := by
  rw [lineupPlace, placePos]
  cases hpos : slotLookup slots f.pos with
  | some cap =>
    dsimp only
    by_cases hlt : st.2 f.pos < cap
    · rw [if_pos hlt]
      exact Or.inr ⟨f.pos, rfl⟩
    · rw [if_neg hlt]
      dsimp only
      rw [placeFlex]
      cases hfl : slotLookup slots "FLEX" with
      | some fcap =>
        dsimp only
        by_cases hcond : (st.2 "FLEX" < fcap && (f.pos == "RB" || f.pos == "WR" || f.pos == "TE")) = true
        · rw [if_pos hcond]
          exact Or.inr ⟨"FLEX", rfl⟩
        · rw [if_neg hcond]
          exact Or.inl rfl
      | none => exact Or.inl rfl
  | none =>
    dsimp only
    rw [placeFlex]
    cases hfl : slotLookup slots "FLEX" with
    | some fcap =>
      dsimp only
      by_cases hcond : (st.2 "FLEX" < fcap && (f.pos == "RB" || f.pos == "WR" || f.pos == "TE")) = true
      · rw [if_pos hcond]
        exact Or.inr ⟨"FLEX", rfl⟩
      · rw [if_neg hcond]
        exact Or.inl rfl
    | none => exact Or.inl rfl

theorem foldl_lineup_countP (slots : List (String × Nat)) (p : LineupEntry → Bool)
    (q : Feature → Bool)
    (hq : ∀ (f : Feature) (slot : String),
      p { player_id := f.player_id, slot := slot, score := round2 (lineup_score f) } = true →
      q f = true) :
    ∀ (l : List Feature) (st : List LineupEntry × (String → Nat)),
      (l.foldl (lineupPlace slots) st).1.countP p ≤ st.1.countP p + l.countP q := by
  intro l
  induction l with
  | nil => intro st; simp
  | cons f l ih =>
    intro st
    rw [List.foldl_cons]
    refine le_trans (ih (lineupPlace slots st f)) ?_
    rcases lineupPlace_shape slots st f with hsh | ⟨slot, hsh⟩
    · rw [hsh, List.countP_cons]
      omega
    · rw [hsh, List.countP_append, List.countP_cons, List.countP_cons, List.countP_nil]
      have e1 : (if (true = true) then (1 : Nat) else 0) = 1 := if_pos rfl
      have e2 : (if (false = true) then (1 : Nat) else 0) = 0 := if_neg (by simp)
      by_cases hp : p { player_id := f.player_id, slot := slot, score := round2 (lineup_score f) } = true
      · rw [hq f slot hp, hp, e1]
        omega
      · have hp' : p { player_id := f.player_id, slot := slot, score := round2 (lineup_score f) } = false :=
          Bool.eq_false_iff.mpr hp
        rw [hp', e2]
        by_cases hqf : q f = true
        · rw [hqf, e1]; omega
        · rw [Bool.eq_false_iff.mpr hqf, e2]; omega

/-- C10: each input feature contributes at most one lineup entry — a player
placed in a position slot is never also placed into FLEX — so both per-player
entry counts and the total lineup length are bounded by the input. -/
theorem C10_one_entry_per_feature (features : List Feature) (slots : List (String × Nat)) :
    (suggest_lineup features slots).length ≤ features.length ∧
    ∀ pid : String,
      (suggest_lineup features slots).countP (fun e => e.player_id == pid) ≤
        features.countP (fun f => f.player_id == pid) := by
  constructor
  · have h := foldl_lineup_countP slots (fun _ => true) (fun _ => true) (fun _ _ _ => rfl)
      (stableSortBy ltScoreDesc features) ([], fun _ => 0)
    have hlen := (stableSortBy_perm ltScoreDesc features).length_eq
    unfold suggest_lineup
    simpa [List.countP_true, hlen] using h
  · intro pid
    have h := foldl_lineup_countP slots (fun e => e.player_id == pid)
      (fun f => f.player_id == pid) (fun f slot hp => hp)
      (stableSortBy ltScoreDesc features) ([], fun _ => 0)
    have hperm := (stableSortBy_perm ltScoreDesc features).countP_eq
      (fun f => f.player_id == pid)
    unfold suggest_lineup
    simp only [List.countP_nil, Nat.zero_add] at h
    rw [hperm] at h
    exact h

/-! ## C8 — POWN sort order -/

theorem ltPOWN_false_le (a b : Row) (h : ltPOWN b a = false) : ownOf b ≤ ownOf a := by
  rw [ltPOWN] at h
  by_cases h1 : -ownOf b < -ownOf a
  · rw [if_pos h1] at h
    exact absurd h (by simp)
  · have h2 : -ownOf a ≤ -ownOf b := not_lt.1 h1
    linarith

/-- C8: whenever `available_players` is called with `sort="POWN"` and yields
rows, the ownership values of consecutive yielded rows (as the sort key
computes them: `float(r.get("%owned") or 0.0)` with exception fallback 0.0)
are non-increasing. -/
theorem C8_pown_sort_nonincreasing (fetchFA : String → PyVal) (fetchWv : PyVal)
    (position : Option String) (includeWaivers : Bool) (search : Option String)
    (limit : Option Int) (out : List Row)
    (h : available_players fetchFA fetchWv position includeWaivers search "POWN" limit = .ok out) :
    out.Chain' (fun a b => ownOf b ≤ ownOf a) := by
  rw [available_players] at h
  cases hs : availableRowsSorted fetchFA fetchWv position includeWaivers search "POWN" with
  | error e =>
    rw [hs] at h
    exact absurd h (by simp)
  | ok rows =>
    rw [hs] at h
    have hout : out = applyLimit limit rows := by
      injection h with h
      exact h.symm
    rw [availableRowsSorted] at hs
    cases hpool : buildPool fetchFA fetchWv position includeWaivers with
    | error e => rw [hpool] at hs; exact absurd hs (by simp)
    | ok pool =>
      rw [hpool] at hs
      dsimp only at hs
      cases hrows : normalizeRows search pool with
      | error e => rw [hrows] at hs; exact absurd hs (by simp)
      | ok rows0 =>
        rw [hrows] at hs
        injection hs with hs
        have hsort : sortRows "POWN" rows0 = stableSortBy ltPOWN rows0 := rfl
        have hchain : rows.Chain' (fun a b => ownOf b ≤ ownOf a) := by
          rw [← hs, hsort]
          exact (chain'_stableSortBy ltPOWN ltPOWN_asym rows0).imp
            (fun a b hab => ltPOWN_false_le a b hab)
        rw [hout]
        cases limit with
        | none => exact hchain
        | some n =>
          rw [applyLimit]
          by_cases hn : 0 ≤ n
          · rw [if_pos hn]
            exact hchain.take _
          · rw [if_neg hn]
            exact hchain

/-- Witness for C8 at two free agents with ownership 10 and 30. -/
theorem C8_witness :
    (result_rows (available_players pOwnFetchFA (.list []) Option.none true
        Option.none "POWN" Option.none)).Chain' (fun a b => ownOf b ≤ ownOf a) :=
  C8_pown_sort_nonincreasing pOwnFetchFA (.list []) Option.none true Option.none
    Option.none _ rfl

/-! ## C9 — the limit cap -/

/-- C9: the result-count cap applies exactly when `limit` is a non-negative
int — then at most `limit` rows come out; a `None` or negative limit is
silently ignored and the call yields the same rows as an unlimited call. -/
theorem C9_limit_cap (fetchFA : String → PyVal) (fetchWv : PyVal)
    (position : Option String) (includeWaivers : Bool) (search : Option String)
    (sort : String) (n : Int) (out : List Row) :
    (available_players fetchFA fetchWv position includeWaivers search sort (some n) = .ok out →
      0 ≤ n → out.length ≤ n.toNat) ∧
    (n < 0 →
      available_players fetchFA fetchWv position includeWaivers search sort (some n) =
        available_players fetchFA fetchWv position includeWaivers search sort Option.none) := by
  cases hs : availableRowsSorted fetchFA fetchWv position includeWaivers search sort with
  | error e =>
    constructor
    · intro h
      rw [available_players, hs] at h
      exact absurd h (by simp)
    · intro _
      rw [available_players, available_players, hs]
  | ok rows =>
    constructor
    · intro h hn
      rw [available_players, hs] at h
      injection h with h
      rw [← h, applyLimit, if_pos hn, List.length_take]
      exact min_le_left _ _
    · intro hn
      rw [available_players, available_players, hs]
      have : applyLimit (some n) rows = applyLimit Option.none rows := by
        rw [applyLimit, applyLimit, if_neg (not_le.2 hn)]
      dsimp only
      rw [this]

/-- Witness for C9: a limit of 1 caps the two-row pool, and a limit of -1
behaves exactly like no limit. -/
theorem C9_witness :
    (result_rows (available_players dupFetchFA (.list []) Option.none true
        Option.none "AR" (some 1))).length ≤ (1 : Int).toNat ∧
    available_players dupFetchFA (.list []) Option.none true Option.none "AR" (some (-1)) =
      available_players dupFetchFA (.list []) Option.none true Option.none "AR" Option.none :=
  ⟨(C9_limit_cap dupFetchFA (.list []) Option.none true Option.none "AR" 1 _).1
      rfl (by decide),
   (C9_limit_cap dupFetchFA (.list []) Option.none true Option.none "AR" (-1) []).2
      (by decide)⟩

/-! ## C1 — pool dedup -/

/-- C1 counterexample: with the same player returned by both the QB and RB
free-agent fetches (a multi-position-eligible player), `available_players`
yields two rows with the same `player_id` — the free-agent pass never
deduplicates, only the waiver merge does. -/
theorem C1_counterexample :
    has_dup_pid_rows (result_rows (available_players dupFetchFA (.list [])
      Option.none true Option.none "AR" Option.none)) = true := rfl

theorem has_dup_pid_append (pool : List Pdict) (a : Pdict)
    (hd : has_dup_pid pool = false)
    (ha : pool.any (fun x => pyEq (pid_of x) (pid_of a)) = false) :
    has_dup_pid (pool ++ [a]) = false := by
  induction pool with
  | nil => rfl
  | cons x pool ih =>
    rw [has_dup_pid] at hd
    rw [List.any_cons] at ha
    have hd1 : pool.any (fun y => pyEq (pid_of x) (pid_of y)) = false :=
      (Bool.or_eq_false_iff.1 hd).1
    have hd2 : has_dup_pid pool = false := (Bool.or_eq_false_iff.1 hd).2
    have ha1 : pyEq (pid_of x) (pid_of a) = false := (Bool.or_eq_false_iff.1 ha).1
    have ha2 : pool.any (fun y => pyEq (pid_of y) (pid_of a)) = false :=
      (Bool.or_eq_false_iff.1 ha).2
    rw [List.cons_append, has_dup_pid, List.any_append]
    rw [hd1, ih hd2 ha2]
    simp [ha1]

theorem addWaiver_dedup (position : Option String) (pool : List Pdict) (item0 : Pdict)
    (pool' : List Pdict) (h : addWaiver position pool item0 = .ok pool')
    (hd : has_dup_pid pool = false) : has_dup_pid pool' = false := by
  rw [addWaiver] at h
  by_cases hg : (pyTruthy (pid_of (wTag item0)) &&
      !(pool.any fun x => pyEq (pid_of x) (pid_of (wTag item0)))) = true
  · rw [if_pos hg] at h
    cases hw : waiverPosOk position (wTag item0) with
    | error e => rw [hw] at h; exact absurd h (by simp)
    | ok b =>
      rw [hw] at h
      cases b with
      | true =>
        injection h with h
        rw [← h]
        have hany : pool.any (fun x => pyEq (pid_of x) (pid_of (wTag item0))) = false := by
          have := (Bool.and_eq_true _ _ ▸ hg).2
          simpa using this
        exact has_dup_pid_append pool _ hd hany
      | false =>
        injection h with h
        exact h ▸ hd
  · rw [if_neg hg] at h
    injection h with h
    exact h ▸ hd

/-- C1 amended: the dedup rule holds for the waiver merge only — a waiver
player whose `player_id` already appears in the pool is not added again, so
the merge preserves `player_id`-uniqueness of the pool it is given.  The
claim's blanket uniqueness is false (see the counterexample): the free-agent
pass appends rows for every per-position list without any dedup, so a player
present in two position lists appears twice. -/
theorem C1_waiver_merge_dedup (position : Option String) :
    ∀ (wv pool pool' : List Pdict), mergeWaivers position pool wv = .ok pool' →
      has_dup_pid pool = false → has_dup_pid pool' = false
  | [], pool, pool', h, hd => by
    rw [mergeWaivers] at h
    injection h with h
    exact h ▸ hd
  | it :: its, pool, pool', h, hd => by
    rw [mergeWaivers] at h
    cases ha : addWaiver position pool it with
    | error e => rw [ha] at h; exact absurd h (by simp)
    | ok pool1 =>
      rw [ha] at h
      exact C1_waiver_merge_dedup position its pool1 pool' h
        (addWaiver_dedup position pool it pool1 ha hd)

/-- Witness for the amended C1: merging a fresh-id waiver item into a
dup-free pool keeps the pool dup-free. -/
theorem C1_waiver_merge_dedup_witness : has_dup_pid [wItem, wTag w2] = false :=
  C1_waiver_merge_dedup Option.none [w2] [wItem] [wItem, wTag w2] rfl rfl

/-! ## C4 — transient failure then success -/

/-- Two-step evaluation of `_retry`: first attempt fails with a non-auth
error, second succeeds; the single sleep is `min(base * 2^0, max) * jitter`,
which is `base * jitter` once `base ≤ max_sleep`. -/
theorem retry_transient_then_ok (fn : Nat → Except String α) (jitter : Nat → ℚ)
    (tries : Nat) (base maxS : ℚ) (v : α) (e : String)
    (htr : 2 ≤ tries) (h0 : fn 0 = .error e)
    (hauth : is_auth_failure (decode_err_text e) = false)
    (h1 : fn 1 = .ok v) (hbm : base ≤ maxS) :
    retry fn jitter tries base maxS = .ok v [base * jitter 0] := by
  obtain ⟨r, rfl⟩ : ∃ r, tries = r + 2 := ⟨tries - 2, by omega⟩
  have hs : min (base * 2 ^ (0 : Nat)) maxS * jitter 0 = base * jitter 0 := by
    rw [pow_zero, mul_one, min_eq_left hbm]
  rw [retry, show r + 2 = (r + 1) + 1 from rfl, retryLoop, h0]
  simp only [hauth, Bool.false_eq_true, if_false]
  rw [show ((2 : Nat) ≤ 0 && !looks_temporary (decode_err_text e) && r + 2 ≤ 0 + 2) = false by simp]
  simp only [Bool.false_eq_true, if_false]
  rw [retryLoop, h1, List.nil_append, hs]

/-- C4 counterexample: with `base_sleep = 0.6` and a jitter draw of 0.7
(the low end of `uniform(0.7, 1.3)`), the single intervening sleep is
0.42 < base_sleep, so "every intervening sleep is at least base_sleep" is
false of the code. -/
theorem C4_counterexample :
    retry c4fn (fun _ => 7/10) 6 (3/5 : ℚ) 8 = .ok 7 [(3/5 : ℚ) * (7/10)] ∧
      (3/5 : ℚ) * (7/10) < 3/5 := by
  constructor
  · exact retry_transient_then_ok c4fn (fun _ => 7/10) 6 (3/5) 8 7 "temporary problem"
      (by omega) rfl (by decide) rfl (by norm_num)
  · norm_num

/-- C4 amended: a transient failure followed by success completes without
raising, and each intervening sleep lies between `0.7 * base_sleep` and
`1.3 * base_sleep` (hence at most `1.3 * max_sleep`): the jitter multiplies
the backoff by a factor in [0.7, 1.3], so the sleep can undershoot
`base_sleep` and overshoot `max_sleep` by up to 30%. -/
theorem C4_transient_retry_sleep_bounds (fn : Nat → Except String α) (jitter : Nat → ℚ)
    (tries : Nat) (base maxS : ℚ) (v : α) (e : String)
    (htr : 2 ≤ tries) (h0 : fn 0 = .error e)
    (hauth : is_auth_failure (decode_err_text e) = false)
    (_htemp : looks_temporary (decode_err_text e) = true)
    (h1 : fn 1 = .ok v) (hb : 0 ≤ base) (hbm : base ≤ maxS)
    (hj1 : 7/10 ≤ jitter 0) (hj2 : jitter 0 ≤ 13/10) :
    retry fn jitter tries base maxS = .ok v [base * jitter 0] ∧
      7/10 * base ≤ base * jitter 0 ∧ base * jitter 0 ≤ 13/10 * base := by
  refine ⟨retry_transient_then_ok fn jitter tries base maxS v e htr h0 hauth h1 hbm, ?_, ?_⟩
  · calc 7/10 * base = base * (7/10) := by ring
      _ ≤ base * jitter 0 := mul_le_mul_of_nonneg_left hj1 hb
  · calc base * jitter 0 ≤ base * (13/10) := mul_le_mul_of_nonneg_left hj2 hb
      _ = 13/10 * base := by ring

/-- Witness for the amended C4 at the source defaults and a mid-range jitter. -/
theorem C4_witness :
    retry c4fn (fun _ => 1) 6 (3/5 : ℚ) 8 = .ok 7 [(3/5 : ℚ) * 1] ∧
      7/10 * (3/5 : ℚ) ≤ (3/5 : ℚ) * 1 ∧ (3/5 : ℚ) * 1 ≤ 13/10 * (3/5 : ℚ) :=
  C4_transient_retry_sleep_bounds c4fn (fun _ => 1) 6 (3/5) 8 7 "temporary problem"
    (by omega) rfl (by decide) (by decide) rfl (by norm_num) (by norm_num)
    (by norm_num) (by norm_num)

end YFF
